import Mathlib

/-
Verification of the JSON extraction/parsing pipeline, the assembler, the
repair agent and the meta-agent construction of the mobility-catalog
repository, as a shallow embedding in Lean.

Conventions of the embedding:
- Python `str` values are Lean `String`s; the character-level helpers work
  on `List Char` (`String.data`).
- Python `dict`s produced by `json.loads` are association lists
  `List (String × Json)` in key-insertion order; duplicate keys follow
  Python semantics (later assignment overwrites in place).
- `json.loads` is modelled by `MC.loads` below, an executable recursive
  descent parser for the JSON grammar accepted by Python's json module
  (objects, arrays, strings with escapes, numbers, true/false/null,
  the four JSON whitespace characters).  Numbers are modelled as exact
  rationals; the NaN/Infinity extensions and surrogate-pair decoding of
  \u escapes are elided (no claim depends on them).
- Error message strings that the source builds by interpolating exception
  details are modelled by fixed non-empty strings carrying the same static
  prefix; no claim depends on the interpolated part.
-/

namespace MC

/-- Whitespace stripped by Python `str.strip()` (ASCII part; the inputs the
claims quantify over contain no non-ASCII whitespace). -/
def isPyWs (c : Char) : Bool :=
  c = ' ' || c = '\t' || c = '\n' || c = '\r' || c = '\x0b' || c = '\x0c'

/-- Python `str.strip()` on a character list. -/
def pyStrip (l : List Char) : List Char :=
  ((l.dropWhile isPyWs).reverse.dropWhile isPyWs).reverse

/-- The window of `pat.length` characters of `l` starting at `i` equals `pat`
(the matching notion of Python `str.find`/`in` for substring `pat`). -/
def matchAt (l pat : List Char) (i : Nat) : Bool :=
  decide ((l.drop i).take pat.length = pat)

/-- Python `text.find(pat, start)`: smallest index `i ≥ start` where `pat`
occurs in `l`, `none` for Python's `-1`. -/
def findSubFrom (l pat : List Char) (start : Nat) : Option Nat :=
  (List.range (l.length + 1)).find? (fun i => decide (start ≤ i) && matchAt l pat i)

/-- Python `pat in text` (substring containment). -/
def containsSub (l pat : List Char) : Bool :=
  (findSubFrom l pat 0).isSome

/-- Python `c in text` for a single character. -/
def containsChar (l : List Char) (c : Char) : Bool :=
  l.any (fun x => x = c)

/-- Python slice `l[a:b]`. -/
def pySlice (l : List Char) (a b : Nat) : List Char :=
  (l.take b).drop a

/-- Python `text.rfind(c)` for a single character: largest index holding `c`. -/
def rfindChar (l : List Char) (c : Char) : Option Nat :=
  ((List.range l.length).filter (fun i => decide (l.get? i = some c))).getLast?

/-- Python `s.endswith(suf)`. -/
def pyEndsWith (l suf : List Char) : Bool :=
  decide (l.drop (l.length - suf.length) = suf) && decide (suf.length ≤ l.length)

/-- The "```json" fence marker of utils/json_utils.py. -/
def fenceJson : List Char := "```json".data

/-- The "```" fence marker of utils/json_utils.py. -/
def fence3 : List Char := "```".data

/-- The second half of extract_json_from_text (json_utils.py lines 33-39):
slice from the first "\x7b" to the last "\x7d" when both are present, then
strip. -/
def braceStrip (t1 : List Char) : List Char :=
  let t2 :=
    if containsChar t1 '{' && containsChar t1 '}' then
      let a := (findSubFrom t1 ['{'] 0).getD 0
      let b := (rfindChar t1 '}').getD 0
      pySlice t1 a (b + 1)
    else t1
  pyStrip t2

/-- utils/json_utils.py, extract_json_from_text, on character lists:
strip; cut the first fenced block out (preferring a "```json" fence);
then slice from the first "\x7b" to the last "\x7d"; strip. -/
def extractJson (s : List Char) : List Char :=
  let t := pyStrip s
  let t1 :=
    if containsSub t fenceJson then
      let start := (findSubFrom t fenceJson 0).getD 0 + 7
      match findSubFrom t fence3 start with
      | some e => pyStrip (pySlice t start e)
      | none => t
    else if containsSub t fence3 then
      let start := (findSubFrom t fence3 0).getD 0 + 3
      match findSubFrom t fence3 start with
      | some e => pyStrip (pySlice t start e)
      | none => t
    else t
  braceStrip t1

/-- utils/json_utils.py, def extract_json_from_text(text). -/
def extract_json_from_text (text : String) : String :=
  String.mk (extractJson text.data)

/-- JSON values as produced by Python json.loads: null, booleans, numbers
(kept as exact rationals), strings, arrays, and objects as association
lists in key-insertion order. -/
inductive Json where
  | null : Json
  | bool : Bool → Json
  | num : ℚ → Json
  | str : String → Json
  | arr : List Json → Json
  | obj : List (String × Json) → Json

/-- A parsed JSON object / Python dict. -/
abbrev Dict := List (String × Json)

/-- Python dict assignment d[k] = v: overwrite in place if the key exists,
else append. -/
def dictSet (d : Dict) (k : String) (v : Json) : Dict :=
  if d.any (fun p => decide (p.1 = k)) then
    d.map (fun p => if p.1 = k then (k, v) else p)
  else d ++ [(k, v)]

/-- Python d.get(k) / `k in d` lookup: first (unique) entry with key `k`. -/
def dictGet (d : Dict) (k : String) : Option Json :=
  (d.find? (fun p => decide (p.1 = k))).map Prod.snd

/-- JSON whitespace accepted between tokens by Python json.loads. -/
def isJsonWs (c : Char) : Bool :=
  c = ' ' || c = '\t' || c = '\n' || c = '\r'

/-- Skip JSON whitespace. -/
def skipWs (l : List Char) : List Char :=
  l.dropWhile isJsonWs

/-- Hex digit value for \u escapes. -/
def hexVal (c : Char) : Option Nat :=
  if '0' ≤ c && c ≤ '9' then some (c.toNat - 48)
  else if 'a' ≤ c && c ≤ 'f' then some (c.toNat - 87)
  else if 'A' ≤ c && c ≤ 'F' then some (c.toNat - 55)
  else none

/-- Body of a JSON string literal after the opening quote: characters up to
the closing quote, with backslash escapes; unescaped control characters are
rejected (Python strict mode).  Fuel-indexed for structural recursion. -/
def parseStringBody : Nat → List Char → List Char → Option (String × List Char)
  | 0, _, _ => none
  | _ + 1, [], _ => none
  | fuel + 1, c :: rest, acc =>
    if c = '"' then some (String.mk acc.reverse, rest)
    else if c = '\\' then
      match rest with
      | [] => none
      | e :: rest2 =>
        if e = '"' then parseStringBody fuel rest2 ('"' :: acc)
        else if e = '\\' then parseStringBody fuel rest2 ('\\' :: acc)
        else if e = '/' then parseStringBody fuel rest2 ('/' :: acc)
        else if e = 'b' then parseStringBody fuel rest2 ('\x08' :: acc)
        else if e = 'f' then parseStringBody fuel rest2 ('\x0c' :: acc)
        else if e = 'n' then parseStringBody fuel rest2 ('\n' :: acc)
        else if e = 'r' then parseStringBody fuel rest2 ('\r' :: acc)
        else if e = 't' then parseStringBody fuel rest2 ('\t' :: acc)
        else if e = 'u' then
          match rest2 with
          | h1 :: h2 :: h3 :: h4 :: rest3 =>
            match hexVal h1, hexVal h2, hexVal h3, hexVal h4 with
            | some a, some b, some c3, some d =>
              parseStringBody fuel rest3 (Char.ofNat (4096 * a + 256 * b + 16 * c3 + d) :: acc)
            | _, _, _, _ => none
          | _ => none
        else none
    else if c.toNat < 32 then none
    else parseStringBody fuel rest (c :: acc)

/-- Numeric value of a digit run. -/
def digitsVal (ds : List Char) : Nat :=
  ds.foldl (fun a c => 10 * a + (c.toNat - 48)) 0

/-- JSON number grammar: -? int frac? exp?, with no leading zeros in int. -/
def parseNumber (l : List Char) : Option (ℚ × List Char) :=
  let (neg, l1) :=
    match l with
    | '-' :: r => (true, r)
    | _ => (false, l)
  let ipRes : Option (Nat × List Char) :=
    match l1 with
    | '0' :: r => some (0, r)
    | c :: _ =>
      if c.isDigit then
        let run := l1.takeWhile Char.isDigit
        some (digitsVal run, l1.drop run.length)
      else none
    | [] => none
  match ipRes with
  | none => none
  | some (ip, l2) =>
    let (fv, l3) :=
      match l2 with
      | '.' :: r =>
        let run := r.takeWhile Char.isDigit
        if run.isEmpty then ((none : Option ℚ), l2)
        else (some ((digitsVal run : ℚ) / (10 ^ run.length : ℚ)), r.drop run.length)
      | _ => (none, l2)
    if (match l2 with | '.' :: _ => fv.isNone | _ => false) then none
    else
      let base : ℚ := (ip : ℚ) + fv.getD 0
      let expRes : Option (Option (Bool × Nat) × List Char) :=
        match l3 with
        | 'e' :: r | 'E' :: r =>
          let (esign, r2) :=
            match r with
            | '+' :: rr => (false, rr)
            | '-' :: rr => (true, rr)
            | _ => (false, r)
          let run := r2.takeWhile Char.isDigit
          if run.isEmpty then none
          else some (some (esign, digitsVal run), r2.drop run.length)
        | _ => some (none, l3)
      match expRes with
      | none => none
      | some (eo, l4) =>
        let scaled : ℚ :=
          match eo with
          | none => base
          | some (esign, e) => if esign then base / (10 ^ e : ℚ) else base * (10 ^ e : ℚ)
        some (if neg then -scaled else scaled, l4)

/-- Parser mode: a value, the members of an object after "\x7b" (accumulator
holds the members parsed so far), or the elements of an array after "[". -/
inductive PMode where
  | value : PMode
  | members : Dict → PMode
  | elements : List Json → PMode

/-- Recursive-descent core of json.loads, structurally recursive on fuel.
In value mode the head character dispatches exactly as Python's scanner:
"\x7b" object, "[" array, quote string, literals true/false/null, else a
number.  Member and element modes expect whitespace already skipped. -/
def parseCore : Nat → PMode → List Char → Option (Json × List Char)
  | 0, _, _ => none
  | fuel + 1, PMode.value, l =>
    match l with
    | '{' :: r =>
      match skipWs r with
      | '}' :: r2 => some (Json.obj [], r2)
      | r2 => parseCore fuel (PMode.members []) r2
    | '[' :: r =>
      match skipWs r with
      | ']' :: r2 => some (Json.arr [], r2)
      | r2 => parseCore fuel (PMode.elements []) r2
    | '"' :: r => (parseStringBody (r.length + 1) r []).map (fun p => (Json.str p.1, p.2))
    | 't' :: 'r' :: 'u' :: 'e' :: r => some (Json.bool true, r)
    | 'f' :: 'a' :: 'l' :: 's' :: 'e' :: r => some (Json.bool false, r)
    | 'n' :: 'u' :: 'l' :: 'l' :: r => some (Json.null, r)
    | _ => (parseNumber l).map (fun p => (Json.num p.1, p.2))
  | fuel + 1, PMode.members acc, l =>
    match l with
    | '"' :: r =>
      match parseStringBody (r.length + 1) r [] with
      | none => none
      | some (k, r2) =>
        match skipWs r2 with
        | ':' :: r3 =>
          match parseCore fuel PMode.value (skipWs r3) with
          | none => none
          | some (v, r4) =>
            match skipWs r4 with
            | ',' :: r5 => parseCore fuel (PMode.members (dictSet acc k v)) (skipWs r5)
            | '}' :: r5 => some (Json.obj (dictSet acc k v), r5)
            | _ => none
        | _ => none
    | _ => none
  | fuel + 1, PMode.elements acc, l =>
    match parseCore fuel PMode.value l with
    | none => none
    | some (v, r) =>
      match skipWs r with
      | ',' :: r2 => parseCore fuel (PMode.elements (acc ++ [v])) (skipWs r2)
      | ']' :: r2 => some (Json.arr (acc ++ [v]), r2)
      | _ => none

/-- Python json.loads: parse one value surrounded by optional whitespace;
trailing non-whitespace is an error.  none models a raised
json.JSONDecodeError.  The fuel bound dominates the recursion depth (each
two fuel units consume at least one input character). -/
def loads (s : String) : Option Json :=
  match parseCore (2 * s.length + 2) PMode.value (skipWs s.data) with
  | some (v, rest) => if skipWs rest = [] then some v else none
  | none => none

/-- utils/json_utils.py, def safe_json_parse(text): extract, parse, demand a
dict at top level; never raises.  The source interpolates the decode error
position and message into its error string; the model keeps the static
prefix (all claims depend only on the error being non-empty). -/
def safe_json_parse (text : String) : Dict × String :=
  match loads (extract_json_from_text text) with
  | some (Json.obj d) => (d, "")
  | some _ => ([], "Parsed JSON is not a dictionary")
  | none => ([], "JSON parsing error")

/-- Python truthiness of a JSON value ("not data" tests in the source). -/
def jsonTruthy : Json → Bool
  | Json.null => false
  | Json.bool b => b
  | Json.num q => decide (q ≠ 0)
  | Json.str s => decide (s ≠ "")
  | Json.arr l => !l.isEmpty
  | Json.obj l => !l.isEmpty

/-- schemas/validators.py, required_sections of validate_complete_measure. -/
def requiredSections : List String :=
  ["meta", "overview", "context", "evidence", "impact",
   "requirements", "infrastructure", "operations", "costs",
   "risks", "monitoring", "checklist", "lifecycle",
   "roles", "financial", "compliance", "visibility",
   "selection", "scalability"]

/-- schemas/validators.py, validate_complete_measure: collect an error for
each required section that is absent or empty; valid iff no errors. -/
def validate_complete_measure (data : Dict) : Bool × List String :=
  let errors := requiredSections.foldl
    (fun acc s =>
      match dictGet data s with
      | none => acc ++ ["Missing required section: " ++ s]
      | some v =>
        if jsonTruthy v then acc
        else acc ++ ["Section \x27" ++ s ++ "\x27 is empty"])
    []
  (errors.isEmpty, errors)

/-- The errors validate_complete_measure contributes for one required
section (a proof-side characterization of its fold body). -/
def valErr (data : Dict) (s : String) : List String :=
  match dictGet data s with
  | none => ["Missing required section: " ++ s]
  | some v => if jsonTruthy v then [] else ["Section \x27" ++ s ++ "\x27 is empty"]

/-- agents/mobility/assembly_agent.py: the 19 document section keys paired
with the workflow-state keys they are read from ("context" is read from
state key "context_data"). -/
def sectionStateKeys : List (String × String) :=
  [("meta", "meta"), ("overview", "overview"), ("context", "context_data"),
   ("evidence", "evidence"), ("impact", "impact"),
   ("requirements", "requirements"), ("infrastructure", "infrastructure"),
   ("operations", "operations"), ("costs", "costs"), ("risks", "risks"),
   ("monitoring", "monitoring"), ("checklist", "checklist"),
   ("lifecycle", "lifecycle"),
   ("roles_responsibilities_detailed", "roles_responsibilities_detailed"),
   ("financial_model", "financial_model"), ("compliance", "compliance"),
   ("visibility_and_communication_design", "visibility_and_communication_design"),
   ("selection_logic", "selection_logic"),
   ("future_scalability", "future_scalability")]

/-- The 19 expected section names of the assembled document. -/
def expectedSections : List String := sectionStateKeys.map Prod.fst

/-- Round half to even on rationals (the rounding of Python round()). -/
def roundHalfEvenQ (q : ℚ) : ℤ :=
  let f := ⌊q⌋
  let r := q - (f : ℚ)
  if r < 1 / 2 then f
  else if 1 / 2 < r then f + 1
  else if Even f then f else f + 1

/-- Python round(q, 1) modelled in exact arithmetic: round half to even at
one decimal.  (The source computes this on floats; on the values reachable
here the float result rounds to the same tenth.) -/
def pyRound1 (q : ℚ) : ℚ :=
  (roundHalfEvenQ (10 * q) : ℚ) / 10

/-- assembly_agent.py line 79/122: round((19 - missing) / 19 * 100, 1). -/
def completionPercentage (missing : Nat) : ℚ :=
  pyRound1 ((19 - (missing : ℚ)) / 19 * 100)

/-- measure_name.lower().replace(" ", "-").replace("/", "-") of
assembly_agent.py (character-wise, as both replacements are single
characters). -/
def safeFileName (measure_name : String) : String :=
  String.mk (measure_name.data.map
    (fun c => let lc := c.toLower; if lc = ' ' || lc = '/' then '-' else lc))

/-- Ensure the "_metadata" entry exists and rewrite its (object) value, as
the source does with complete_measure["_metadata"] assignments; a fresh
entry is appended at the end in Python dict insertion order. -/
def setMetadata (d : Dict) (f : Dict → Dict) : Dict :=
  match dictGet d "_metadata" with
  | some (Json.obj m) => dictSet d "_metadata" (Json.obj (f m))
  | _ => dictSet d "_metadata" (Json.obj (f []))

/-- The output filename of assembly_agent.py lines 106-113: safe name,
fixed stem, and a "-partial" suffix exactly if sections are missing. -/
def assemblyFilename (measure_name : String) (missing : List String) : String :=
  safeFileName measure_name ++ "-mobility-measure" ++
    (if missing.isEmpty then "" else "-partial") ++ ".json"

/-- The `sections` dict of assembly_agent_node lines 36-56: document key
paired with the section result read from the state. -/
def sectionsOf (st : String → Dict) : List (String × Dict) :=
  sectionStateKeys.map (fun p => (p.1, st p.2))

/-- assembly_agent_node line 59: names whose section result is empty. -/
def missingOf (st : String → Dict) : List String :=
  ((sectionsOf st).filter (fun p => p.2.isEmpty)).map Prod.fst

/-- The value returned by assembly_agent_node. -/
structure AssemblyResult where
  complete_measure : Dict
  output_path : String
  errors : List String

/-- assembly_agent_node lines 66-72: every expected key is kept, an empty
result becomes an empty dict placeholder. -/
def assemblyBase (st : String → Dict) : Dict :=
  (sectionsOf st).map (fun p => (p.1, Json.obj p.2))

/-- The completeness metadata block of assembly_agent_node lines 76-81. -/
def incompleteMetadata (st : String → Dict) (now : String) : Dict :=
  [("incomplete", Json.bool true),
   ("missing_sections", Json.arr ((missingOf st).map Json.str)),
   ("completion_percentage", Json.num (completionPercentage (missingOf st).length)),
   ("generated_at", Json.str now)]

/-- The document after the merge step and the conditional completeness
metadata (assembly_agent_node lines 66-81). -/
def assemblyDoc1 (st : String → Dict) (now : String) : Dict :=
  if (missingOf st).isEmpty then assemblyBase st
  else assemblyBase st ++ [("_metadata", Json.obj (incompleteMetadata st now))]

/-- The document after validation has been recorded into the metadata
(assembly_agent_node lines 83-103). -/
def assemblyDoc2 (st : String → Dict) (now : String) : Dict :=
  let vres := validate_complete_measure (assemblyDoc1 st now)
  if vres.1 then
    setMetadata (assemblyDoc1 st now) (fun m => dictSet m "is_valid" (Json.bool true))
  else
    setMetadata (assemblyDoc1 st now) (fun m =>
      dictSet (dictSet m "validation_errors" (Json.arr (vres.2.map Json.str)))
        "is_valid" (Json.bool false))

/-- agents/mobility/assembly_agent.py, assembly_agent_node.  `st` is the
workflow state (state.get(key, default {}) for the section dicts), `now`
stands for the datetime.now() timestamp string, and the file-system write
outcome is supplied by `saveOk`/`saveErrMsg` (the str(e) of the caught
exception).  Collect the 19 sections; record missing ones; keep every key
(empty dict placeholder); add completeness metadata when incomplete; run
validation and record its outcome in the metadata; build the filename; on a
save failure return no path and a save error, otherwise the path. -/
def assembly_agent_node (st : String → Dict) (measure_name now : String)
    (saveOk : Bool) (saveErrMsg : String) : AssemblyResult :=
  let output_path := "research_output/" ++ assemblyFilename measure_name (missingOf st)
  if saveOk then
    { complete_measure := assemblyDoc2 st now, output_path := output_path, errors := [] }
  else
    { complete_measure := assemblyDoc2 st now, output_path := "",
      errors := ["Save error: " ++ saveErrMsg] }

/-- Python str.lower() (character-wise). -/
def pyLower (s : String) : String :=
  String.mk (s.data.map Char.toLower)

/-- The rate-limit test of base.py line 102 and json_fixer.py line 96:
"429" in error_str or "rate_limit" in error_str.lower(). -/
def isRateLimitError (e : String) : Bool :=
  containsSub e.data "429".data || containsSub (pyLower e).data "rate_limit".data

/-- Characters matched by the [\d.] class of the wait-time pattern. -/
def isDigitDot (c : Char) : Bool :=
  c.isDigit || c = '.'

/-- The literal prefix of the wait-time pattern. -/
def tryAgainLit : List Char := "try again in ".data

/-- Whether the regex r"try again in ([\d.]+)([ms])" matches at position
`i`: the literal, then a maximal non-empty [\d.] run, then "m" or "s" (a
shorter, backtracked run would be followed by another digit or dot, so the
maximal run is the only candidate).  Returns the two groups. -/
def waitMatchAt (l : List Char) (i : Nat) : Option (List Char × Char) :=
  if (l.drop i).take 13 = tryAgainLit then
    let rest := l.drop (i + 13)
    let run := rest.takeWhile isDigitDot
    match rest.drop run.length with
    | u :: _ =>
      if !run.isEmpty && (u = 'm' || u = 's') then some (run, u) else none
    | [] => none
  else none

/-- re.search(r"try again in ([\d.]+)([ms])", e): leftmost match. -/
def findWaitMatch (e : String) : Option (List Char × Char) :=
  let l := e.data
  match (List.range (l.length + 1)).find? (fun i => (waitMatchAt l i).isSome) with
  | some i => waitMatchAt l i
  | none => none

/-- Python float() on a [\d.]+ run: defined iff there is at most one dot
and at least one digit; none models the ValueError float() raises. -/
def pyFloatRun (run : List Char) : Option ℚ :=
  let dots := run.count '.'
  if dots = 0 then
    if run.isEmpty then none else some (digitsVal run)
  else if dots = 1 then
    let ip := run.takeWhile (fun c => c ≠ '.')
    let fp := (run.dropWhile (fun c => c ≠ '.')).tail
    if ip.isEmpty && fp.isEmpty then none
    else some ((digitsVal ip : ℚ) + (digitsVal fp : ℚ) / (10 ^ fp.length : ℚ))
  else none

/-- Seconds from a matched wait value: unit "s" is seconds, unit "m" is the
trailing letter of "ms", value / 1000. -/
def normalizeWait (v : ℚ) (u : Char) : ℚ :=
  if u = 's' then v else v / 1000

/-- base.py lines 102-116: the duration passed to time.sleep before the
single retry of the primary request, for a rate-limit error with text `e`:
the parsed server hint normalized to seconds, capped at 10 seconds, plus
the fixed 0.5 second buffer.  none when the error is not a rate-limit one,
when no wait hint matches (the code then goes straight to the fallback
model), or when float() on the matched run raises (which propagates). -/
def generateRetrySleep (e : String) : Option ℚ :=
  if isRateLimitError e then
    match findWaitMatch e with
    | some (run, u) =>
      match pyFloatRun run with
      | some v => some (min (normalizeWait v u) 10 + 1 / 2)
      | none => none
    | none => none
  else none

/-- One llm.invoke outcome as seen by JsonFixerAgent.fix_json: either a
response content string or a raised exception with text `e`. -/
inductive LlmCall where
  | content : String → LlmCall
  | exn : String → LlmCall

/-- Outcome of a modelled Python call: a returned (dict, error) pair or a
propagated exception. -/
inductive PyOutcome where
  | ret : Dict → Option String → PyOutcome
  | raise : String → PyOutcome

/-- json_fixer.py lines 99-105: the pre-cap wait for retry `attempt`: the
parsed server hint normalized to seconds when the pattern matches,
otherwise exponential backoff 2 * 2 ^ attempt; none models the ValueError
float() raises on a malformed hint. -/
def fixBackoffWait (e : String) (attempt : Nat) : Option ℚ :=
  match findWaitMatch e with
  | some (run, u) =>
    match pyFloatRun run with
    | some v => some (normalizeWait v u)
    | none => none
  | none => some (2 * 2 ^ attempt)

/-- A complete run of JsonFixerAgent.fix_json: final outcome, the durations
passed to time.sleep, and the number of llm.invoke calls made. -/
structure FixRun where
  outcome : PyOutcome
  sleeps : List ℚ
  calls : Nat

/-- json_fixer.py lines 69-116, the retry loop of fix_json over `for
attempt in range(max_retries + 1)` with max_retries = 3.  `oracle` gives
the outcome of the llm.invoke call of each attempt.  On content: extract
and parse; a parse error returns immediately with an error, success
returns the dict.  On an exception: if it is a rate-limit error and
attempt < 3, sleep min(wait, 15) + 0.5 and continue; otherwise return an
empty dict with a descriptive error.  Fuel is the number of attempts
remaining; the zero case is unreachable from fix_json. -/
def fixJsonGo (oracle : Nat → LlmCall) : Nat → Nat → List ℚ → FixRun
  | 0, _, sleeps => { outcome := PyOutcome.ret [] none, sleeps := sleeps, calls := 0 }
  | fuel + 1, attempt, sleeps =>
    match oracle attempt with
    | LlmCall.content s =>
      let pr := safe_json_parse (extract_json_from_text s)
      if pr.2 = "" then
        { outcome := PyOutcome.ret pr.1 none, sleeps := sleeps, calls := 1 }
      else
        { outcome := PyOutcome.ret [] (some ("Fix attempts failed: " ++ pr.2)),
          sleeps := sleeps, calls := 1 }
    | LlmCall.exn e =>
      if isRateLimitError e then
        if attempt < 3 then
          match fixBackoffWait e attempt with
          | some w =>
            let run := fixJsonGo oracle fuel (attempt + 1) (sleeps ++ [min w 15 + 1 / 2])
            { outcome := run.outcome, sleeps := run.sleeps, calls := run.calls + 1 }
          | none =>
            { outcome := PyOutcome.raise "ValueError: could not convert string to float",
              sleeps := sleeps, calls := 1 }
        else
          { outcome := PyOutcome.ret [] (some ("Error during JSON repair: " ++ e)),
            sleeps := sleeps, calls := 1 }
      else
        { outcome := PyOutcome.ret [] (some ("Error during JSON repair: " ++ e)),
          sleeps := sleeps, calls := 1 }

/-- JsonFixerAgent.fix_json driven by an oracle of llm.invoke outcomes. -/
def fix_json (oracle : Nat → LlmCall) : FixRun :=
  fixJsonGo oracle 4 0 []

/-- An opaque Python value passed as a constructor argument (the agent
constructors never inspect these beyond binding them). -/
inductive PyVal where
  | str : String → PyVal
  | llmRef : Nat → PyVal
  | none : PyVal

/-- base.py line 36, BaseMobilityAgent.__init__(self, section_name,
schema_prompt): binds exactly two positional arguments beyond self; any
other count raises TypeError. -/
def baseMobilityAgent_init (args : List PyVal) : Except String (PyVal × PyVal) :=
  match args with
  | [section_name, schema_prompt] => Except.ok (section_name, schema_prompt)
  | _ => Except.error
      ("TypeError: BaseMobilityAgent.__init__() takes 3 positional arguments but "
        ++ toString (args.length + 1) ++ " were given")

/-- meta_agent.py line 40, MetaAgent.__init__(self, llm_instance=None):
calls super().__init__("meta", self.SCHEMA_PROMPT, llm_instance) with three
positional arguments.  (The schema prompt string itself is irrelevant to
the arity; it is abbreviated here.) -/
def metaAgent_init (llm_instance : PyVal) : Except String (PyVal × PyVal) :=
  baseMobilityAgent_init
    [PyVal.str "meta", PyVal.str "Generate ONLY the meta section", llm_instance]

/-- Look a key up inside the "_metadata" block of an assembled document. -/
def metadataLookup (d : Dict) (k : String) : Option Json :=
  match dictGet d "_metadata" with
  | some (Json.obj m) => dictGet m k
  | _ => none

/-- A JSON payload wrapped in a fenced code block with surrounding
whitespace, as in the spec scenario for extraction idempotence. -/
def wrapFenced (s : String) : String :=
  " \n```json\n" ++ s ++ "\n``` \n"

/-- A workflow state with every section generated and non-empty. -/
def stateAllFull : String → Dict := fun _ => [("k", Json.str "v")]

/-- A workflow state in which exactly the meta, overview and evidence
section results are empty (the 3-of-19-missing scenario of the spec). -/
def stateThreeEmpty : String → Dict := fun k =>
  if k = "meta" || k = "overview" || k = "evidence" then []
  else [("k", Json.str "v")]

/-- A syntactically valid JSON object whose string values contain fence
markers: \x7b"a":"```","b":\x7b"c":"x"\x7d,"d":"```"\x7d. -/
def tripleBacktickObjText : String :=
  "\x7b\"a\":\"```\",\"b\":\x7b\"c\":\"x\"\x7d,\"d\":\"```\"\x7d"

/-- The parse of tripleBacktickObjText. -/
def tripleBacktickObj : Dict :=
  [("a", Json.str "```"), ("b", Json.obj [("c", Json.str "x")]),
   ("d", Json.str "```")]

/-- An oracle under which every llm.invoke of the repair agent raises a
rate-limit error carrying no wait-time hint. -/
def oracleAllRateLimited : Nat → LlmCall :=
  fun _ => LlmCall.exn "HTTP 429 too many requests"

/-- If find? succeeds on a prefix it succeeds on the whole list. -/
theorem find?_append_some {α : Type} {p : α → Bool} {l₁ l₂ : List α} {a : α}
    (h : l₁.find? p = some a) : (l₁ ++ l₂).find? p = some a := by
  rw [List.find?_append, h]; rfl

/-- If find? fails on a prefix, it continues on the rest. -/
theorem find?_append_none {α : Type} {p : α → Bool} {l₁ l₂ : List α}
    (h : l₁.find? p = none) : (l₁ ++ l₂).find? p = l₂.find? p := by
  rw [List.find?_append, h]; rfl

/-- find? over an initial range returns the least index satisfying p. -/
theorem find?_range_eq_some {p : Nat → Bool} {j n : Nat}
    (hj : p j = true) (hmin : ∀ m, m < j → p m = false) (hn : j < n) :
    (List.range n).find? p = some j := by
  induction n with
  | zero => omega
  | succ n ih =>
    rw [List.range_succ]
    rcases Nat.lt_or_ge j n with h | h
    · exact find?_append_some (ih h)
    · have hjeq : j = n := by omega
      subst hjeq
      have hnone : (List.range j).find? p = none := by
        rw [List.find?_eq_none]
        intro x hx
        simp [hmin x (List.mem_range.mp hx)]
      rw [find?_append_none hnone]
      exact List.find?_cons_of_pos _ hj

/-- Characterization used for the Python str.find model: the returned index
is the least matching position at or after start. -/
theorem findSubFrom_eq_some {l pat : List Char} {start j : Nat}
    (hs : start ≤ j)
    (hw : (l.drop j).take pat.length = pat)
    (hmin : ∀ m, start ≤ m → m < j → ¬((l.drop m).take pat.length = pat))
    (hj : j ≤ l.length) :
    findSubFrom l pat start = some j := by
  unfold findSubFrom
  apply find?_range_eq_some
  · simp [matchAt, hs, hw]
  · intro m hm
    by_cases h1 : start ≤ m
    · simp [matchAt, hmin m h1 hm]
    · simp [h1]
  · omega

/-- A substring window witnesses containment. -/
theorem containsSub_true_of_window {l pat : List Char} {i : Nat}
    (hw : (l.drop i).take pat.length = pat) : containsSub l pat = true := by
  have hx : ∃ x ∈ List.range (l.length + 1),
      (decide (0 ≤ x) && matchAt l pat x) = true := by
    rcases le_or_lt i l.length with h | h
    · exact ⟨i, List.mem_range.mpr (by omega), by simp [matchAt, hw]⟩
    · have hd : l.drop i = [] := List.drop_eq_nil_of_le (by omega)
      have hpat : pat = [] := by rw [hd] at hw; simpa using hw.symm
      exact ⟨0, List.mem_range.mpr (by omega), by simp [matchAt, hpat]⟩
  unfold containsSub findSubFrom
  exact Option.isSome_iff_exists.mpr (by
    rcases List.find?_isSome.mpr hx with h
    exact Option.isSome_iff_exists.mp h)

/-- Non-containment rules out every window. -/
theorem window_ne_of_containsSub_false {l pat : List Char}
    (h : containsSub l pat = false) (i : Nat) :
    ¬((l.drop i).take pat.length = pat) := by
  intro hw
  rw [containsSub_true_of_window hw] at h
  cases h

/-- Containment yields a window. -/
theorem window_of_containsSub_true {l pat : List Char}
    (h : containsSub l pat = true) :
    ∃ i, (l.drop i).take pat.length = pat := by
  unfold containsSub findSubFrom at h
  rw [Option.isSome_iff_exists] at h
  obtain ⟨j, hj⟩ := h
  have := List.find?_some hj
  rw [Bool.and_eq_true] at this
  exact ⟨j, by simpa [matchAt] using this.2⟩

/-- A window inside the middle part of a concatenation lifts to the whole. -/
theorem window_lift {a m b pat : List Char} {i : Nat}
    (hw : (m.drop i).take pat.length = pat) :
    ((a ++ m ++ b).drop (a.length + i)).take pat.length = pat := by
  have hlen : pat.length ≤ (m.drop i).length := by
    have hc := congrArg List.length hw
    rw [List.length_take] at hc
    have h2 := Nat.min_le_right pat.length (m.drop i).length
    rw [hc] at h2
    exact h2
  have h1 : (a ++ m ++ b).drop (a.length + i) = m.drop i ++ b.drop (i - m.length) := by
    rw [List.append_assoc, List.drop_append_eq_append_drop,
      List.drop_eq_nil_of_le (show a.length ≤ a.length + i by omega),
      show a.length + i - a.length = i from by omega,
      List.drop_append_eq_append_drop, List.nil_append]
  rw [h1, List.take_append_eq_append_take, Nat.sub_eq_zero_of_le hlen]
  simp [hw]

/-- Substring containment is preserved by widening to a superstring. -/
theorem containsSub_of_infix {a m b pat : List Char}
    (h : containsSub m pat = true) :
    containsSub (a ++ m ++ b) pat = true := by
  obtain ⟨i, hw⟩ := window_of_containsSub_true h
  exact containsSub_true_of_window (window_lift hw)

/-- pyStrip returns an infix: whitespace prefix and suffix are split off. -/
theorem pyStrip_decomp (l : List Char) :
    ∃ a b, l = a ++ pyStrip l ++ b ∧ (∀ c ∈ a, isPyWs c = true) ∧
      (∀ c ∈ b, isPyWs c = true) := by
  have h1 : l = l.takeWhile isPyWs ++ l.dropWhile isPyWs :=
    (List.takeWhile_append_dropWhile _ _).symm
  have h2 : (l.dropWhile isPyWs).reverse =
      (l.dropWhile isPyWs).reverse.takeWhile isPyWs ++
      (l.dropWhile isPyWs).reverse.dropWhile isPyWs :=
    (List.takeWhile_append_dropWhile _ _).symm
  have h3 : l.dropWhile isPyWs =
      pyStrip l ++ ((l.dropWhile isPyWs).reverse.takeWhile isPyWs).reverse := by
    have hc := congrArg List.reverse h2
    rw [List.reverse_reverse, List.reverse_append] at hc
    exact hc
  refine ⟨l.takeWhile isPyWs,
    ((l.dropWhile isPyWs).reverse.takeWhile isPyWs).reverse, ?_, ?_, ?_⟩
  · calc l = l.takeWhile isPyWs ++ l.dropWhile isPyWs := h1
      _ = l.takeWhile isPyWs ++ (pyStrip l ++
          ((l.dropWhile isPyWs).reverse.takeWhile isPyWs).reverse) := by rw [← h3]
      _ = _ := by rw [List.append_assoc]
  · intro c hc; exact List.mem_takeWhile_imp hc
  · intro c hc; rw [List.mem_reverse] at hc; exact List.mem_takeWhile_imp hc

/-- Membership transfers out of pyStrip. -/
theorem mem_of_mem_pyStrip {l : List Char} {c : Char} (h : c ∈ pyStrip l) :
    c ∈ l := by
  obtain ⟨a, b, hl, _, _⟩ := pyStrip_decomp l
  rw [hl]; simp [h]

/-- Substring containment transfers out of pyStrip. -/
theorem containsSub_of_pyStrip {l pat : List Char}
    (h : containsSub (pyStrip l) pat = true) : containsSub l pat = true := by
  obtain ⟨a, b, hl, _, _⟩ := pyStrip_decomp l
  rw [hl]; exact containsSub_of_infix h

/-- A "```json" occurrence contains a "```" occurrence. -/
theorem containsSub_fence3_of_fenceJson {l : List Char}
    (h : containsSub l fenceJson = true) : containsSub l fence3 = true := by
  obtain ⟨i, hw⟩ := window_of_containsSub_true h
  have h3 : (l.drop i).take fence3.length = fence3 := by
    show (l.drop i).take 3 = fence3
    calc (l.drop i).take 3 = ((l.drop i).take 7).take 3 := by
          rw [List.take_take]; norm_num
      _ = fenceJson.take 3 := by rw [show (l.drop i).take 7 = fenceJson from hw]
      _ = fence3 := by decide
  exact containsSub_true_of_window h3

/-- dropWhile is idempotent. -/
theorem dropWhile_dropWhile {p : Char → Bool} (l : List Char) :
    (l.dropWhile p).dropWhile p = l.dropWhile p := by
  induction l with
  | nil => rfl
  | cons c t ih =>
    by_cases h : p c
    · rw [List.dropWhile_cons_of_pos h]; exact ih
    · rw [List.dropWhile_cons_of_neg h, List.dropWhile_cons_of_neg h]

/-- dropWhile skips a fully-satisfying prefix. -/
theorem dropWhile_append_all {p : Char → Bool} {a x : List Char}
    (ha : ∀ c ∈ a, p c = true) :
    (a ++ x).dropWhile p = x.dropWhile p := by
  rw [List.dropWhile_append]
  have hnil : a.dropWhile p = [] := List.dropWhile_eq_nil_iff.mpr ha
  simp [hnil]

/-- dropWhile is the identity when the head does not satisfy p. -/
theorem dropWhile_eq_self_of_head {p : Char → Bool} {l : List Char}
    (h : ∀ c, l.head? = some c → p c = false) : l.dropWhile p = l := by
  cases l with
  | nil => rfl
  | cons c t => exact List.dropWhile_cons_of_neg (by simp [h c rfl])

/-- pyStrip is idempotent. -/
theorem pyStrip_idem (l : List Char) : pyStrip (pyStrip l) = pyStrip l := by
  have hstep1 : (pyStrip l).dropWhile isPyWs = pyStrip l := by
    apply dropWhile_eq_self_of_head
    intro c hc
    have hpre : l.dropWhile isPyWs = pyStrip l ++
        ((l.dropWhile isPyWs).reverse.takeWhile isPyWs).reverse := by
      have h2 : (l.dropWhile isPyWs).reverse =
          (l.dropWhile isPyWs).reverse.takeWhile isPyWs ++
          (l.dropWhile isPyWs).reverse.dropWhile isPyWs :=
        (List.takeWhile_append_dropWhile _ _).symm
      have hcr := congrArg List.reverse h2
      rw [List.reverse_reverse, List.reverse_append] at hcr
      exact hcr
    obtain ⟨t, ht⟩ : ∃ t, pyStrip l = c :: t := by
      cases hps : pyStrip l with
      | nil => rw [hps] at hc; cases hc
      | cons c0 t0 =>
        rw [hps] at hc
        simp only [List.head?] at hc
        exact ⟨t0, by rw [Option.some_inj] at hc; rw [hc]⟩
    have hhd : (l.dropWhile isPyWs).head? = some c := by
      rw [hpre, ht]; rfl
    have hnot := List.head?_dropWhile_not isPyWs l
    rw [hhd] at hnot
    exact hnot
  have hrev : (pyStrip l).reverse =
      (l.dropWhile isPyWs).reverse.dropWhile isPyWs := by
    simp [pyStrip]
  show (((pyStrip l).dropWhile isPyWs).reverse.dropWhile isPyWs).reverse = pyStrip l
  rw [hstep1, hrev, dropWhile_dropWhile, ← hrev, List.reverse_reverse]

/-- Whitespace padding around a list does not change its pyStrip. -/
theorem pyStrip_pad {a b x : List Char}
    (ha : ∀ c ∈ a, isPyWs c = true) (hb : ∀ c ∈ b, isPyWs c = true) :
    pyStrip (a ++ x ++ b) = pyStrip x := by
  have h1 : (a ++ x ++ b).dropWhile isPyWs = (x ++ b).dropWhile isPyWs := by
    rw [List.append_assoc]; exact dropWhile_append_all ha
  by_cases hx : x.dropWhile isPyWs = []
  · have h2 : (x ++ b).dropWhile isPyWs = [] := by
      rw [List.dropWhile_append]
      simp [hx, List.dropWhile_eq_nil_iff.mpr hb]
    show (((a ++ x ++ b).dropWhile isPyWs).reverse.dropWhile isPyWs).reverse = pyStrip x
    rw [h1, h2]
    show ([] : List Char) = pyStrip x
    simp [pyStrip, hx]
  · have h2 : (x ++ b).dropWhile isPyWs = x.dropWhile isPyWs ++ b := by
      rw [List.dropWhile_append, if_neg (by simp [List.isEmpty_iff, hx])]
    show (((a ++ x ++ b).dropWhile isPyWs).reverse.dropWhile isPyWs).reverse = pyStrip x
    rw [h1, h2, List.reverse_append,
      dropWhile_append_all (by intro c hc; rw [List.mem_reverse] at hc; exact hb c hc)]
    rfl

/-- containsChar is list membership. -/
theorem containsChar_iff {l : List Char} {c : Char} :
    containsChar l c = true ↔ c ∈ l := by
  simp [containsChar, List.any_eq_true]

/-- On input free of braces and fence markers, the extractor takes no
branch and returns the stripped input. -/
theorem extractJson_plain {l : List Char}
    (hb1 : containsChar l '{' = false)
    (hf : containsSub l fence3 = false) :
    extractJson l = pyStrip l := by
  have hf3 : containsSub (pyStrip l) fence3 = false := by
    rw [Bool.eq_false_iff]
    intro h
    rw [containsSub_of_pyStrip h] at hf
    cases hf
  have hfJ : containsSub (pyStrip l) fenceJson = false := by
    rw [Bool.eq_false_iff]
    intro h
    rw [containsSub_fence3_of_fenceJson h] at hf3
    cases hf3
  have hc1 : containsChar (pyStrip l) '{' = false := by
    rw [Bool.eq_false_iff]
    intro h
    have hm := mem_of_mem_pyStrip (containsChar_iff.mp h)
    rw [containsChar_iff.mpr hm] at hb1
    cases hb1
  simp only [extractJson, braceStrip, hfJ, hf3, hc1, Bool.false_eq_true, if_false,
    Bool.false_and, pyStrip_idem]

/-- Claim C4 (amended): for every input text containing no brace characters
and no triple-backtick fence marker, extract_json_from_text returns the
trimmed input unchanged. -/
theorem c4_extractor_identity (s : String)
    (hb1 : containsChar s.data '{' = false)
    (hb2 : containsChar s.data '}' = false)
    (hf : containsSub s.data fence3 = false) :
    extract_json_from_text s = String.mk (pyStrip s.data) := by
  unfold extract_json_from_text
  rw [extractJson_plain hb1 hf]

/-- Witness for c4_extractor_identity at a concrete fence-free input. -/
theorem c4_extractor_identity_witness :
    containsChar " hello, world ".data '{' = false ∧
    containsChar " hello, world ".data '}' = false ∧
    containsSub " hello, world ".data fence3 = false ∧
    extract_json_from_text " hello, world " = String.mk (pyStrip " hello, world ".data) :=
  ⟨by decide, by decide, by decide,
    c4_extractor_identity " hello, world " (by decide) (by decide) (by decide)⟩

/-- Counterexample to claim C4 as stated: the input a```b```c contains no
brace characters, yet the extractor cuts the fenced content out and
returns b, not the trimmed input. -/
theorem c4_counterexample :
    containsChar "a```b```c".data '{' = false ∧
    containsChar "a```b```c".data '}' = false ∧
    extract_json_from_text "a```b```c" = "b" ∧
    extract_json_from_text "a```b```c" ≠ String.mk (pyStrip "a```b```c".data) := by
  refine ⟨by decide, by decide, by decide, ?_⟩
  intro h
  have h2 : ("b" : String) = String.mk (pyStrip "a```b```c".data) := by
    rw [← h]; decide
  exact absurd h2 (by decide)

/-- Claim C2: safe_json_parse is total: for every input string it returns a
(mapping, error) pair, and the mapping is empty whenever the error is
non-empty. -/
theorem c2_safe_parser_total (text : String) :
    ∃ pr : Dict × String, safe_json_parse text = pr ∧ (pr.2 = "" ∨ pr.1 = []) := by
  refine ⟨safe_json_parse text, rfl, ?_⟩
  rcases hl : loads (extract_json_from_text text) with _ | v
  · right; simp [safe_json_parse, hl]
  · cases v <;> simp [safe_json_parse, hl]

/-- Claim C3: the error of safe_json_parse is non-empty exactly when the
extracted text does not parse as a JSON object; on failure the mapping is
empty, on success the error is empty and the mapping is the parsed
object. -/
theorem c3_parse_error_iff (text : String) :
    ((safe_json_parse text).2 ≠ "" ↔
      ¬ ∃ d, loads (extract_json_from_text text) = some (Json.obj d)) ∧
    ((safe_json_parse text).2 ≠ "" → (safe_json_parse text).1 = []) ∧
    ((safe_json_parse text).2 = "" →
      loads (extract_json_from_text text) = some (Json.obj (safe_json_parse text).1)) := by
  rcases hl : loads (extract_json_from_text text) with _ | v
  · simp [safe_json_parse, hl]
  · cases v <;> simp [safe_json_parse, hl]

/-- Witness for c3_parse_error_iff: at the input "gibberish" the parse
fails, the error is non-empty and the mapping is empty. -/
theorem c3_parse_error_iff_witness :
    (safe_json_parse "gibberish").1 = [] ∧ (safe_json_parse "gibberish").2 ≠ "" := by
  have h := c3_parse_error_iff "gibberish"
  have herr : (safe_json_parse "gibberish").2 ≠ "" := by decide
  exact ⟨h.2.1 herr, herr⟩

/-- Claim C10: constructing a MetaAgent always raises TypeError, whatever
llm_instance is passed, because MetaAgent.__init__ forwards three
positional arguments to BaseMobilityAgent.__init__, which binds two. -/
theorem c10_meta_agent_init_type_error (llm_instance : PyVal) :
    metaAgent_init llm_instance = Except.error
      ("TypeError: BaseMobilityAgent.__init__() takes 3 positional arguments but "
        ++ toString (4 : Nat) ++ " were given") := rfl

/-- For a payload with no fence marker, extraction of the fence-wrapped
payload and of the bare payload agree: both reduce to the brace step on the
stripped payload. -/
theorem extractJson_wrapFenced (s : String)
    (h3 : containsSub s.data fence3 = false) :
    extractJson (wrapFenced s).data = extractJson s.data := by
  have hAlen : fenceJson.length = 7 := by decide
  have hTlen : fence3.length = 3 := by decide
  have hsdlen : ("\n".data).length = 1 := by decide
  -- the wrapped text, stripped, is the fenced core
  have hWdata : (wrapFenced s).data =
      " \n".data ++
      (fenceJson ++ ("\n".data ++ (s.data ++ ("\n".data ++ fence3)))) ++
      " \n".data := by
    show (" \n```json\n" ++ s ++ "\n``` \n").data = _
    rw [String.data_append, String.data_append,
      show " \n```json\n".data = " \n".data ++ (fenceJson ++ "\n".data) from by decide,
      show "\n``` \n".data = "\n".data ++ (fence3 ++ " \n".data) from by decide]
    simp [List.append_assoc]
  have hA1 : (fenceJson ++ ("\n".data ++ (s.data ++ ("\n".data ++ fence3)))).dropWhile isPyWs
      = fenceJson ++ ("\n".data ++ (s.data ++ ("\n".data ++ fence3))) := by
    rw [List.dropWhile_append, if_neg (by decide),
      show fenceJson.dropWhile isPyWs = fenceJson from by decide]
  have hgT : fenceJson ++ ("\n".data ++ (s.data ++ ("\n".data ++ fence3))) =
      (fenceJson ++ ("\n".data ++ (s.data ++ "\n".data))) ++ fence3 := by
    simp [List.append_assoc]
  have hA2 : (fenceJson ++ ("\n".data ++ (s.data ++ ("\n".data ++ fence3)))).reverse.dropWhile isPyWs
      = (fenceJson ++ ("\n".data ++ (s.data ++ ("\n".data ++ fence3)))).reverse := by
    rw [hgT, List.reverse_append, List.dropWhile_append, if_neg (by decide),
      show fence3.reverse.dropWhile isPyWs = fence3.reverse from by decide]
  have hCoreStrip : pyStrip (fenceJson ++ ("\n".data ++ (s.data ++ ("\n".data ++ fence3))))
      = fenceJson ++ ("\n".data ++ (s.data ++ ("\n".data ++ fence3))) := by
    show ((List.dropWhile isPyWs _).reverse.dropWhile isPyWs).reverse = _
    rw [hA1, hA2, List.reverse_reverse]
  have hStripW : pyStrip (wrapFenced s).data =
      fenceJson ++ ("\n".data ++ (s.data ++ ("\n".data ++ fence3))) := by
    rw [hWdata, pyStrip_pad (by decide) (by decide), hCoreStrip]
  -- the "```json" fence is found at position 0
  have hfindJ : findSubFrom (fenceJson ++ ("\n".data ++ (s.data ++ ("\n".data ++ fence3))))
      fenceJson 0 = some 0 := by
    apply findSubFrom_eq_some (Nat.le_refl 0)
    · rw [List.drop_zero]
      exact List.take_left' rfl
    · intro m _ hm; omega
    · simp
  -- the closing "```" fence is found right after the payload
  have hfind3 : findSubFrom (fenceJson ++ ("\n".data ++ (s.data ++ ("\n".data ++ fence3))))
      fence3 7 = some (9 + s.data.length) := by
    have hQlen : (fenceJson ++ ("\n".data ++ (s.data ++ "\n".data))).length
        = 9 + s.data.length := by
      simp [hAlen]; omega
    apply findSubFrom_eq_some (by omega)
    · rw [hgT, List.drop_left' hQlen, hTlen,
        show fence3.take 3 = fence3 from by decide]
    · intro m h7 hlt
      rcases Nat.lt_or_ge m 8 with hm7 | hm8
      · have hm : m = 7 := by omega
        subst hm
        rw [show (7 : Nat) = fenceJson.length from hAlen.symm, List.drop_left]
        intro heq
        have hmem : '\n' ∈ fence3 := by
          rw [← heq, hTlen, List.take_append_eq_append_take,
            show ("\n".data).take 3 = "\n".data from by decide]
          exact List.mem_append_left _ (by decide)
        exact absurd hmem (by decide)
      · have hk : m - 8 ≤ s.data.length := by omega
        have hg8 : fenceJson ++ ("\n".data ++ (s.data ++ ("\n".data ++ fence3))) =
            "```json\n".data ++ (s.data ++ ("\n".data ++ fence3)) := by
          rw [show ("```json\n".data : List Char) = fenceJson ++ "\n".data from by decide]
          simp [List.append_assoc]
        have hdropm : (fenceJson ++ ("\n".data ++ (s.data ++ ("\n".data ++ fence3)))).drop m
            = s.data.drop (m - 8) ++ ("\n".data ++ fence3) := by
          rw [hg8, List.drop_append_eq_append_drop,
            List.drop_eq_nil_of_le (by simpa using hm8),
            show m - ("```json\n".data).length = m - 8 from by simp,
            List.nil_append, List.drop_append_eq_append_drop,
            show m - 8 - s.data.length = 0 from by omega, List.drop_zero]
        rw [hdropm, hTlen]
        rcases Nat.lt_or_ge (m - 8 + 3) (s.data.length + 1) with hk3 | hk3
        · have hdlen : 3 ≤ (s.data.drop (m - 8)).length := by
            rw [List.length_drop]; omega
          rw [List.take_append_eq_append_take, Nat.sub_eq_zero_of_le hdlen,
            List.take_zero, List.append_nil]
          have := window_ne_of_containsSub_false h3 (m - 8)
          rwa [hTlen] at this
        · have hdlen : (s.data.drop (m - 8)).length ≤ 3 := by
            rw [List.length_drop]; omega
          rw [List.take_append_eq_append_take,
            List.take_of_length_le hdlen]
          intro heq
          have hpos : 1 ≤ 3 - (s.data.drop (m - 8)).length := by
            rw [List.length_drop]; omega
          have hmem : '\n' ∈ s.data.drop (m - 8) ++
              ("\n".data ++ fence3).take (3 - (s.data.drop (m - 8)).length) := by
            apply List.mem_append_right
            rw [List.take_append_eq_append_take,
              List.take_of_length_le (by rw [hsdlen]; omega)]
            exact List.mem_append_left _ (by decide)
          rw [heq] at hmem
          exact absurd hmem (by decide)
    · simp only [List.length_append, hAlen, hTlen, hsdlen]
      omega
  -- the sliced fenced content strips to the stripped payload
  have hslice : pySlice (fenceJson ++ ("\n".data ++ (s.data ++ ("\n".data ++ fence3))))
      7 (9 + s.data.length) = "\n".data ++ (s.data ++ "\n".data) := by
    have hQlen : (fenceJson ++ ("\n".data ++ (s.data ++ "\n".data))).length
        = 9 + s.data.length := by
      simp [hAlen]; omega
    unfold pySlice
    rw [hgT, List.take_left' hQlen,
      show (7 : Nat) = fenceJson.length from hAlen.symm, List.drop_left]
  have hsliceStrip : pyStrip ("\n".data ++ (s.data ++ "\n".data)) = pyStrip s.data := by
    have := pyStrip_pad (a := "\n".data) (b := "\n".data) (x := s.data)
      (by decide) (by decide)
    rw [← this, List.append_assoc]
  -- bare side: no fence branch fires
  have hb3 : containsSub (pyStrip s.data) fence3 = false := by
    rw [Bool.eq_false_iff]
    intro h
    rw [containsSub_of_pyStrip h] at h3
    cases h3
  have hbJ : containsSub (pyStrip s.data) fenceJson = false := by
    rw [Bool.eq_false_iff]
    intro h
    rw [containsSub_fence3_of_fenceJson h] at hb3
    cases hb3
  -- assemble both sides
  have hcontJ : containsSub (fenceJson ++ ("\n".data ++ (s.data ++ ("\n".data ++ fence3))))
      fenceJson = true := by
    unfold containsSub
    rw [hfindJ]
    rfl
  calc extractJson (wrapFenced s).data
      = braceStrip (pyStrip ("\n".data ++ (s.data ++ "\n".data))) := by
        simp only [extractJson, hStripW, hcontJ, if_true, hfindJ, Option.getD_some,
          Nat.zero_add, hfind3, hslice]
    _ = braceStrip (pyStrip s.data) := by rw [hsliceStrip]
    _ = extractJson s.data := by
        simp only [extractJson, hbJ, hb3, Bool.false_eq_true, if_false]

/-- Claim C5 (amended): for every syntactically valid JSON object string
containing no triple-backtick marker, applying extract_json_from_text and
then safe_json_parse to the bare string and to the string wrapped in a
fenced code block with surrounding whitespace yields the same mapping. -/
theorem c5_extraction_idempotent (s : String) (d : Dict)
    (hv : loads s = some (Json.obj d))
    (h3 : containsSub s.data fence3 = false) :
    (safe_json_parse (extract_json_from_text s)).1 =
      (safe_json_parse (extract_json_from_text (wrapFenced s))).1 := by
  have he : extract_json_from_text (wrapFenced s) = extract_json_from_text s := by
    unfold extract_json_from_text
    rw [extractJson_wrapFenced s h3]
  rw [he]

/-- Witness for c5_extraction_idempotent at a small valid JSON object. -/
theorem c5_extraction_idempotent_witness :
    loads "\x7b\"a\": \"b\"\x7d" = some (Json.obj [("a", Json.str "b")]) ∧
    containsSub "\x7b\"a\": \"b\"\x7d".data fence3 = false ∧
    (safe_json_parse (extract_json_from_text "\x7b\"a\": \"b\"\x7d")).1 =
      (safe_json_parse (extract_json_from_text (wrapFenced "\x7b\"a\": \"b\"\x7d"))).1 :=
  ⟨rfl, by decide,
    c5_extraction_idempotent "\x7b\"a\": \"b\"\x7d" [("a", Json.str "b")] rfl (by decide)⟩

/-- Counterexample to claim C5 as stated: tripleBacktickObjText is a
syntactically valid JSON object, but extraction of the bare text slices the
inner object out of its fenced middle (one entry), while extraction of the
wrapped text yields an unparseable fragment (empty mapping). -/
theorem c5_counterexample :
    loads tripleBacktickObjText = some (Json.obj tripleBacktickObj) ∧
    (safe_json_parse (extract_json_from_text tripleBacktickObjText)).1 ≠
      (safe_json_parse (extract_json_from_text (wrapFenced tripleBacktickObjText))).1 := by
  refine ⟨rfl, ?_⟩
  intro h
  have h1 : (safe_json_parse (extract_json_from_text tripleBacktickObjText)).1.length = 1 := rfl
  have h2 : (safe_json_parse (extract_json_from_text (wrapFenced tripleBacktickObjText))).1.length = 0 := rfl
  rw [h, h2] at h1
  cases h1

/-- dictGet over an append prefers a hit in the prefix. -/
theorem dictGet_append_some {d e : Dict} {k : String} {v : Json}
    (h : dictGet d k = some v) : dictGet (d ++ e) k = some v := by
  unfold dictGet at h ⊢
  rw [List.find?_append]
  cases hf : List.find? (fun p => decide (p.1 = k)) d with
  | none => rw [hf] at h; cases h
  | some x => rw [hf] at h; simpa using h

/-- dictGet misses when no key matches. -/
theorem dictGet_none {d : Dict} {k : String}
    (h : ∀ q ∈ d, q.1 ≠ k) : dictGet d k = none := by
  unfold dictGet
  rw [List.find?_eq_none.mpr (by intro x hx; simpa using h x hx)]
  rfl

/-- dictGet over an append falls through a missing prefix. -/
theorem dictGet_append_none {d e : Dict} {k : String}
    (h : dictGet d k = none) : dictGet (d ++ e) k = dictGet e k := by
  unfold dictGet at h ⊢
  rw [List.find?_append]
  cases hf : List.find? (fun p => decide (p.1 = k)) d with
  | none => rfl
  | some x => rw [hf] at h; cases h

/-- dictGet of a key-value table mapped over a list with distinct keys. -/
theorem dictGet_mapped {ks : List (String × String)} {f : String × String → Json}
    {p : String × String} (hnd : (ks.map Prod.fst).Nodup) (hp : p ∈ ks) :
    dictGet (ks.map (fun q => (q.1, f q))) p.1 = some (f p) := by
  induction ks with
  | nil => cases hp
  | cons q t ih =>
    rw [List.map_cons, List.nodup_cons] at hnd
    rcases List.mem_cons.mp hp with rfl | hp2
    · unfold dictGet
      rw [List.map_cons, List.find?_cons_of_pos _ (by simp)]
      rfl
    · have hne : q.1 ≠ p.1 := by
        intro he
        exact hnd.1 (by rw [he]; exact List.mem_map_of_mem Prod.fst hp2)
      unfold dictGet
      rw [List.map_cons, List.find?_cons_of_neg _ (by simp [hne])]
      have h2 := ih hnd.2 hp2
      unfold dictGet at h2
      exact h2

/-- After an in-place overwrite, the overwritten key is found. -/
theorem find?_map_set {d : Dict} {k : String} (v : Json)
    (h : d.any (fun p => decide (p.1 = k)) = true) :
    (d.map (fun p => if p.1 = k then (k, v) else p)).find?
      (fun p => decide (p.1 = k)) = some (k, v) := by
  induction d with
  | nil => simp at h
  | cons q t ih =>
    rw [List.map_cons]
    by_cases hq : q.1 = k
    · rw [if_pos hq, List.find?_cons_of_pos _ (by simp)]
    · rw [if_neg hq, List.find?_cons_of_neg _ (by simp [hq])]
      apply ih
      rw [List.any_cons] at h
      simpa [hq] using h

/-- An in-place overwrite of key k leaves lookups of other keys alone. -/
theorem find?_map_set_ne {d : Dict} {k k' : String} (v : Json) (hne : k' ≠ k) :
    (d.map (fun p => if p.1 = k then (k, v) else p)).find?
      (fun p => decide (p.1 = k')) = d.find? (fun p => decide (p.1 = k')) := by
  induction d with
  | nil => rfl
  | cons q t ih =>
    rw [List.map_cons]
    by_cases hq : q.1 = k
    · rw [if_pos hq,
        List.find?_cons_of_neg _ (by simp; exact fun h => hne h.symm),
        List.find?_cons_of_neg _ (by simp [hq]; exact fun h => hne h.symm)]
      exact ih
    · rw [if_neg hq]
      by_cases hq' : q.1 = k'
      · rw [List.find?_cons_of_pos _ (by simp [hq']),
          List.find?_cons_of_pos _ (by simp [hq'])]
      · rw [List.find?_cons_of_neg _ (by simp [hq']),
          List.find?_cons_of_neg _ (by simp [hq'])]
        exact ih

/-- Python d[k] = v followed by lookup of k yields v. -/
theorem dictGet_dictSet_self (d : Dict) (k : String) (v : Json) :
    dictGet (dictSet d k v) k = some v := by
  unfold dictSet
  by_cases h : d.any (fun p => decide (p.1 = k)) = true
  · rw [if_pos h]
    unfold dictGet
    rw [find?_map_set v h]
    rfl
  · rw [if_neg h]
    unfold dictGet
    have hn : List.find? (fun p => decide (p.1 = k)) d = none := by
      rw [List.find?_eq_none]
      intro x hx hpx
      exact h (List.any_eq_true.mpr ⟨x, hx, hpx⟩)
    rw [List.find?_append, hn]
    simp [List.find?]

/-- Python d[k] = v leaves lookups of other keys alone. -/
theorem dictGet_dictSet_ne {d : Dict} {k k' : String} (v : Json) (hne : k' ≠ k) :
    dictGet (dictSet d k v) k' = dictGet d k' := by
  unfold dictSet
  by_cases h : d.any (fun p => decide (p.1 = k)) = true
  · rw [if_pos h]
    unfold dictGet
    rw [find?_map_set_ne v hne]
  · rw [if_neg h]
    unfold dictGet
    rw [List.find?_append]
    cases hf : d.find? (fun p => decide (p.1 = k')) with
    | some x => rfl
    | none =>
      have hdec : decide (k = k') = false := by
        simp only [decide_eq_false_iff_not]
        intro hh
        exact hne hh.symm
      have hd : List.find? (fun p => decide (p.1 = k')) [(k, v)] = none := by
        simp [List.find?, hdec]
      rw [hd]
      rfl

/-- setMetadata leaves lookups of other keys alone. -/
theorem dictGet_setMetadata_ne {d : Dict} {f : Dict → Dict} {k : String}
    (hne : k ≠ "_metadata") :
    dictGet (setMetadata d f) k = dictGet d k := by
  unfold setMetadata
  rcases hm : dictGet d "_metadata" with _ | v
  · exact dictGet_dictSet_ne _ hne
  · cases v <;> exact dictGet_dictSet_ne _ hne

/-- setMetadata rewrites an existing metadata object in place. -/
theorem dictGet_setMetadata_self_some {d : Dict} {f : Dict → Dict} {m0 : Dict}
    (hm : dictGet d "_metadata" = some (Json.obj m0)) :
    dictGet (setMetadata d f) "_metadata" = some (Json.obj (f m0)) := by
  unfold setMetadata
  rw [hm]
  exact dictGet_dictSet_self _ _ _

/-- setMetadata creates a fresh metadata object when none exists. -/
theorem dictGet_setMetadata_self_none {d : Dict} {f : Dict → Dict}
    (hm : dictGet d "_metadata" = none) :
    dictGet (setMetadata d f) "_metadata" = some (Json.obj (f [])) := by
  unfold setMetadata
  rw [hm]
  exact dictGet_dictSet_self _ _ _

/-- The merged base document is the section table mapped over the key
list. -/
theorem assemblyBase_eq (st : String → Dict) :
    assemblyBase st = sectionStateKeys.map (fun q => (q.1, Json.obj (st q.2))) := by
  unfold assemblyBase sectionsOf
  rw [List.map_map]
  rfl

/-- Looking a section key up in the base document yields its state dict. -/
theorem dictGet_assemblyBase {st : String → Dict} {p : String × String}
    (hp : p ∈ sectionStateKeys) :
    dictGet (assemblyBase st) p.1 = some (Json.obj (st p.2)) := by
  rw [assemblyBase_eq]
  exact dictGet_mapped (by decide) hp

/-- Every key of the base document is an expected section name. -/
theorem mem_assemblyBase_keys {st : String → Dict} {q : String × Json}
    (hq : q ∈ assemblyBase st) : q.1 ∈ expectedSections := by
  rw [assemblyBase_eq] at hq
  obtain ⟨p, hp, hpq⟩ := List.mem_map.mp hq
  rw [← hpq]
  exact List.mem_map_of_mem Prod.fst hp

/-- Every key of the staged document is an expected section name or the
metadata key. -/
theorem mem_assemblyDoc1_keys {st : String → Dict} {now : String} {q : String × Json}
    (hq : q ∈ assemblyDoc1 st now) :
    q.1 ∈ expectedSections ∨ q.1 = "_metadata" := by
  unfold assemblyDoc1 at hq
  by_cases h : (missingOf st).isEmpty
  · rw [if_pos h] at hq
    exact Or.inl (mem_assemblyBase_keys hq)
  · rw [if_neg h] at hq
    rcases List.mem_append.mp hq with h1 | h1
    · exact Or.inl (mem_assemblyBase_keys h1)
    · right
      rw [List.mem_singleton.mp h1]

/-- Looking a section key up in the staged document yields its state
dict. -/
theorem dictGet_assemblyDoc1_section {st : String → Dict} {now : String}
    {p : String × String} (hp : p ∈ sectionStateKeys) :
    dictGet (assemblyDoc1 st now) p.1 = some (Json.obj (st p.2)) := by
  unfold assemblyDoc1
  by_cases h : (missingOf st).isEmpty
  · rw [if_pos h]; exact dictGet_assemblyBase hp
  · rw [if_neg h]; exact dictGet_append_some (dictGet_assemblyBase hp)

/-- With nothing missing, the staged document has no metadata entry. -/
theorem dictGet_assemblyDoc1_metadata_none {st : String → Dict} {now : String}
    (h : (missingOf st).isEmpty = true) :
    dictGet (assemblyDoc1 st now) "_metadata" = none := by
  unfold assemblyDoc1
  rw [if_pos h]
  apply dictGet_none
  intro q hq
  have hk := mem_assemblyBase_keys hq
  intro he
  rw [he] at hk
  exact absurd hk (by decide)

/-- With sections missing, the staged document carries the completeness
metadata. -/
theorem dictGet_assemblyDoc1_metadata_some {st : String → Dict} {now : String}
    (h : (missingOf st).isEmpty = false) :
    dictGet (assemblyDoc1 st now) "_metadata"
      = some (Json.obj (incompleteMetadata st now)) := by
  unfold assemblyDoc1
  rw [if_neg (by simp [h])]
  rw [dictGet_append_none (by
    apply dictGet_none
    intro q hq
    have hk := mem_assemblyBase_keys hq
    intro he
    rw [he] at hk
    exact absurd hk (by decide))]
  simp [dictGet, List.find?]

/-- The error list of validate_complete_measure is the concatenation of the
per-section errors. -/
theorem validate_errors_eq (data : Dict) :
    (validate_complete_measure data).2 = requiredSections.flatMap (valErr data) := by
  have key : ∀ (l : List String) (init : List String),
      l.foldl (fun acc s =>
        match dictGet data s with
        | none => acc ++ ["Missing required section: " ++ s]
        | some v =>
          if jsonTruthy v then acc
          else acc ++ ["Section \x27" ++ s ++ "\x27 is empty"]) init
      = init ++ l.flatMap (valErr data) := by
    intro l
    induction l with
    | nil => intro init; simp
    | cons s t ih =>
      intro init
      rw [List.foldl_cons, ih, List.flatMap_cons]
      have hb : (match dictGet data s with
          | none => init ++ ["Missing required section: " ++ s]
          | some v =>
            if jsonTruthy v then init
            else init ++ ["Section \x27" ++ s ++ "\x27 is empty"])
          = init ++ valErr data s := by
        unfold valErr
        rcases dictGet data s with _ | v
        · rfl
        · by_cases ht : jsonTruthy v <;> simp [ht]
      rw [hb, List.append_assoc]
  exact key requiredSections []

/-- The validity flag is the emptiness of the error list. -/
theorem validate_fst (data : Dict) :
    (validate_complete_measure data).1 = (validate_complete_measure data).2.isEmpty := rfl

/-- The staged document never contains the key "roles". -/
theorem dictGet_assemblyDoc1_roles (st : String → Dict) (now : String) :
    dictGet (assemblyDoc1 st now) "roles" = none := by
  apply dictGet_none
  intro q hq
  rcases mem_assemblyDoc1_keys hq with hk | hk
  · intro he
    rw [he] at hk
    exact absurd hk (by decide)
  · rw [hk]
    decide

/-- Validation of the assembled document always fails: its required name
"roles" is never among the assembler's section keys. -/
theorem validate_assemblyDoc1_invalid (st : String → Dict) (now : String) :
    (validate_complete_measure (assemblyDoc1 st now)).1 = false := by
  have hmem : "Missing required section: roles"
      ∈ (validate_complete_measure (assemblyDoc1 st now)).2 := by
    rw [validate_errors_eq]
    apply List.mem_flatMap.mpr
    refine ⟨"roles", by decide, ?_⟩
    rw [valErr, dictGet_assemblyDoc1_roles]
    decide
  rw [validate_fst]
  cases hl : (validate_complete_measure (assemblyDoc1 st now)).2 with
  | nil => rw [hl] at hmem; cases hmem
  | cons x xs => rfl

/-- The recorded document always takes the invalid branch. -/
theorem assemblyDoc2_eq (st : String → Dict) (now : String) :
    assemblyDoc2 st now = setMetadata (assemblyDoc1 st now) (fun m =>
      dictSet (dictSet m "validation_errors"
          (Json.arr ((validate_complete_measure (assemblyDoc1 st now)).2.map Json.str)))
        "is_valid" (Json.bool false)) := by
  unfold assemblyDoc2
  rw [if_neg (by rw [validate_assemblyDoc1_invalid]; exact Bool.false_ne_true)]

/-- The complete_measure field does not depend on the save outcome. -/
theorem assembly_complete_measure (st : String → Dict) (mn now msg : String)
    (saveOk : Bool) :
    (assembly_agent_node st mn now saveOk msg).complete_measure
      = assemblyDoc2 st now := by
  cases saveOk <;> rfl

/-- metadataLookup through a present metadata object. -/
theorem metadataLookup_eq {d m : Dict} {k : String}
    (h : dictGet d "_metadata" = some (Json.obj m)) :
    metadataLookup d k = dictGet m k := by
  unfold metadataLookup
  rw [h]

/-- A suffix check only looks at a long enough tail. -/
theorem pyEndsWith_append {a b suf : List Char} (h : suf.length ≤ b.length) :
    pyEndsWith (a ++ b) suf = pyEndsWith b suf := by
  unfold pyEndsWith
  have h1 : (a ++ b).drop ((a ++ b).length - suf.length)
      = b.drop (b.length - suf.length) := by
    rw [List.drop_append_eq_append_drop,
      List.drop_eq_nil_of_le (by simp [List.length_append]; omega),
      List.nil_append]
    congr 1
    simp [List.length_append]
    omega
  rw [h1,
    show decide (suf.length ≤ (a ++ b).length) = true from by
      simp [List.length_append]; omega,
    show decide (suf.length ≤ b.length) = true from by simpa using h]

/-- Claim C8 is false on the code: even with every one of the 19 sections
present and non-empty, the recorded validation outcome is is_valid = false
with five "Missing required section" errors, because validators.py checks
the names roles, financial, visibility, selection and scalability, which
assembly_agent.py never emits (it emits roles_responsibilities_detailed,
financial_model, visibility_and_communication_design, selection_logic and
future_scalability).  Evaluation of the code at the failing input. -/
theorem c8_validation_name_mismatch :
    sectionStateKeys.all (fun p => !(stateAllFull p.2).isEmpty) = true ∧
    metadataLookup (assembly_agent_node stateAllFull "m" "t" true "").complete_measure
      "is_valid" = some (Json.bool false) ∧
    metadataLookup (assembly_agent_node stateAllFull "m" "t" true "").complete_measure
      "validation_errors" = some (Json.arr
        [Json.str "Missing required section: roles",
         Json.str "Missing required section: financial",
         Json.str "Missing required section: visibility",
         Json.str "Missing required section: selection",
         Json.str "Missing required section: scalability"]) :=
  ⟨by decide, rfl, rfl⟩

/-- Claim C9: when the file write fails the assembler returns an empty
output path and a save error, while the in-memory document equals the one
of a successful run; when the write succeeds it returns the derived path
and no errors.  The assembler itself is a total function: missing or
invalid sections never prevent it from reaching the save step. -/
theorem c9_save_error_handling (st : String → Dict) (mn now msg : String) :
    (assembly_agent_node st mn now false msg).output_path = "" ∧
    (assembly_agent_node st mn now false msg).errors = ["Save error: " ++ msg] ∧
    (assembly_agent_node st mn now false msg).complete_measure
      = (assembly_agent_node st mn now true msg).complete_measure ∧
    (assembly_agent_node st mn now true msg).output_path
      = "research_output/" ++ assemblyFilename mn (missingOf st) ∧
    (assembly_agent_node st mn now true msg).errors = [] :=
  ⟨rfl, rfl, rfl, rfl, rfl⟩

/-- Claim C1 (amended): the assembled document keeps all 19 expected
section keys (empty results as empty dicts); when at least one section is
empty the metadata records 100 * (19 - missing) / 19 rounded to one
decimal as the completion percentage (and records none otherwise); and the
filename ends in -partial.json exactly when a section is missing. -/
theorem c1_assembler_invariant (st : String → Dict) (mn now msg : String)
    (saveOk : Bool) :
    (∀ p ∈ sectionStateKeys,
      dictGet (assembly_agent_node st mn now saveOk msg).complete_measure p.1
        = some (Json.obj (st p.2))) ∧
    ((missingOf st).isEmpty = false →
      metadataLookup (assembly_agent_node st mn now saveOk msg).complete_measure
        "completion_percentage"
        = some (Json.num (pyRound1 (100 * (19 - ((missingOf st).length : ℚ)) / 19)))) ∧
    ((missingOf st).isEmpty = true →
      metadataLookup (assembly_agent_node st mn now saveOk msg).complete_measure
        "completion_percentage" = none) ∧
    (pyEndsWith (assemblyFilename mn (missingOf st)).data "-partial.json".data
      = !(missingOf st).isEmpty) := by
  rw [assembly_complete_measure, assemblyDoc2_eq]
  refine ⟨?_, ?_, ?_, ?_⟩
  · intro p hp
    rw [dictGet_setMetadata_ne (by
      have := (by decide : ∀ q ∈ sectionStateKeys, q.1 ≠ "_metadata")
      exact this p hp)]
    exact dictGet_assemblyDoc1_section hp
  · intro h
    rw [metadataLookup_eq (dictGet_setMetadata_self_some
        (dictGet_assemblyDoc1_metadata_some h)),
      dictGet_dictSet_ne _ (by decide), dictGet_dictSet_ne _ (by decide)]
    have hcp : dictGet (incompleteMetadata st now) "completion_percentage"
        = some (Json.num (completionPercentage (missingOf st).length)) := by
      simp [incompleteMetadata, dictGet, List.find?]
    rw [hcp]
    have harith : completionPercentage (missingOf st).length
        = pyRound1 (100 * (19 - ((missingOf st).length : ℚ)) / 19) := by
      unfold completionPercentage
      congr 1
      ring
    rw [harith]
  · intro h
    rw [metadataLookup_eq (dictGet_setMetadata_self_none
        (dictGet_assemblyDoc1_metadata_none h)),
      dictGet_dictSet_ne _ (by decide), dictGet_dictSet_ne _ (by decide)]
    rfl
  · by_cases h : (missingOf st).isEmpty
    · have hd : (assemblyFilename mn (missingOf st)).data
          = (safeFileName mn).data ++ "-mobility-measure.json".data := by
        unfold assemblyFilename
        rw [if_pos h, String.data_append, String.data_append, String.data_append]
        simp only [List.append_assoc, show ("" : String).data = ([] : List Char) from rfl,
          List.nil_append]
        rw [show ("-mobility-measure".data ++ ".json".data : List Char)
          = "-mobility-measure.json".data from by decide]
      rw [hd, pyEndsWith_append (by decide), h]
      decide
    · have hne : (missingOf st).isEmpty = false := by
        cases hh : (missingOf st).isEmpty
        · rfl
        · rw [hh] at h; cases h rfl
      have hd : (assemblyFilename mn (missingOf st)).data
          = (safeFileName mn).data
            ++ ("-mobility-measure".data ++ "-partial.json".data) := by
        unfold assemblyFilename
        rw [if_neg (by simp [hne]), String.data_append, String.data_append,
          String.data_append]
        simp only [List.append_assoc]
        rw [show ("-partial".data ++ ".json".data : List Char)
          = "-partial.json".data from by decide]
      rw [hd, pyEndsWith_append (by decide), pyEndsWith_append (by decide), hne]
      decide

/-- Witness for c1_assembler_invariant at the 3-of-19-missing state. -/
theorem c1_assembler_invariant_witness :
    (missingOf stateThreeEmpty).isEmpty = false ∧
    dictGet (assembly_agent_node stateThreeEmpty "bike lanes" "t" true "").complete_measure
      "context" = some (Json.obj (stateThreeEmpty "context_data")) ∧
    metadataLookup
      (assembly_agent_node stateThreeEmpty "bike lanes" "t" true "").complete_measure
      "completion_percentage"
      = some (Json.num (pyRound1 (100 * (19 - ((missingOf stateThreeEmpty).length : ℚ)) / 19))) ∧
    pyEndsWith (assemblyFilename "bike lanes" (missingOf stateThreeEmpty)).data
      "-partial.json".data = !(missingOf stateThreeEmpty).isEmpty := by
  have h := c1_assembler_invariant stateThreeEmpty "bike lanes" "t" "" true
  exact ⟨by decide, h.1 ("context", "context_data") (by decide), h.2.1 (by decide),
    h.2.2.2⟩

/-- Counterexample to claim C1 as stated: with exactly 3 empty sections the
recorded completion percentage is the rounded 84.2, which differs from the
exact 100 * (19 - 3) / 19 = 84.21... the claim specifies. -/
theorem c1_counterexample :
    metadataLookup (assembly_agent_node stateThreeEmpty "x" "t" true "").complete_measure
      "completion_percentage" = some (Json.num (completionPercentage 3)) ∧
    completionPercentage 3 ≠ 100 * (19 - 3) / 19 := by
  constructor
  · rfl
  · have hfl : (⌊(16000 / 19 : ℚ)⌋ : ℤ) = 842 := by
      rw [Int.floor_eq_iff]
      constructor <;> norm_num
    have hr : roundHalfEvenQ (16000 / 19 : ℚ) = 842 := by
      unfold roundHalfEvenQ
      rw [hfl, if_pos (by push_cast; norm_num)]
    have h1 : completionPercentage 3 = 421 / 5 := by
      unfold completionPercentage pyRound1
      rw [show ((10 : ℚ) * ((19 - (3 : Nat)) / 19 * 100)) = 16000 / 19 from by
        push_cast; ring, hr]
      push_cast
      norm_num
    rw [h1]
    norm_num

/-- Claim C6 (amended): on a rate-limit failure of the primary request with
a parsable server wait hint, the sleep before the single retry is the hint
normalized to seconds, capped at 10 seconds (not the 15 of the claim),
plus the fixed 0.5 second buffer. -/
theorem c6_retry_wait (e : String) (run : List Char) (u : Char) (v : ℚ)
    (hrl : isRateLimitError e = true)
    (hm : findWaitMatch e = some (run, u))
    (hv : pyFloatRun run = some v) :
    generateRetrySleep e = some (min (normalizeWait v u) 10 + 1 / 2) ∧
    (10 ≤ normalizeWait v u → generateRetrySleep e = some (10 + 1 / 2)) ∧
    (normalizeWait v u ≤ 10 → generateRetrySleep e = some (normalizeWait v u + 1 / 2)) := by
  have hbase : generateRetrySleep e = some (min (normalizeWait v u) 10 + 1 / 2) := by
    simp only [generateRetrySleep, hrl, if_true, hm, hv]
  refine ⟨hbase, ?_, ?_⟩
  · intro hge
    rw [hbase, min_eq_right hge]
  · intro hle
    rw [hbase, min_eq_left hle]

/-- Witness for c6_retry_wait at the spec scenario "try again in 1.2s". -/
theorem c6_retry_wait_witness :
    isRateLimitError "Error 429: try again in 1.2s" = true ∧
    findWaitMatch "Error 429: try again in 1.2s" = some ("1.2".data, 's') ∧
    pyFloatRun "1.2".data = some (6 / 5) ∧
    generateRetrySleep "Error 429: try again in 1.2s"
      = some (min (normalizeWait (6 / 5) 's') 10 + 1 / 2) := by
  have hv : pyFloatRun "1.2".data = some (6 / 5 : ℚ) := by
    rw [show pyFloatRun "1.2".data
        = some ((digitsVal "1".data : ℚ) + (digitsVal "2".data : ℚ)
          / (10 ^ ("2".data).length : ℚ)) from rfl]
    rw [show digitsVal "1".data = 1 from rfl, show digitsVal "2".data = 2 from rfl,
      show ("2".data).length = 1 from rfl]
    norm_num
  have hm : findWaitMatch "Error 429: try again in 1.2s" = some ("1.2".data, 's') := by
    decide
  exact ⟨by decide, hm, hv,
    (c6_retry_wait "Error 429: try again in 1.2s" "1.2".data 's' (6 / 5)
      (by decide) hm hv).1⟩

/-- Counterexample to claim C6 as stated: for the hint "try again in 12s"
the claim's 15-second cap predicts a sleep of 12.5 seconds, but the code of
base.py caps the wait at 10 seconds and sleeps 10.5 seconds. -/
theorem c6_counterexample :
    isRateLimitError "Error 429: try again in 12s" = true ∧
    findWaitMatch "Error 429: try again in 12s" = some ("12".data, 's') ∧
    pyFloatRun "12".data = some 12 ∧
    generateRetrySleep "Error 429: try again in 12s" = some (21 / 2) ∧
    generateRetrySleep "Error 429: try again in 12s" ≠ some (min (12 : ℚ) 15 + 1 / 2) := by
  have hv : pyFloatRun "12".data = some (12 : ℚ) := by
    rw [show pyFloatRun "12".data = some ((digitsVal "12".data : ℚ)) from rfl,
      show digitsVal "12".data = 12 from rfl]
    norm_num
  have hm : findWaitMatch "Error 429: try again in 12s" = some ("12".data, 's') := by
    decide
  have hs : generateRetrySleep "Error 429: try again in 12s" = some (21 / 2) := by
    have h := (c6_retry_wait "Error 429: try again in 12s" "12".data 's' 12
      (by decide) hm hv).2.1 (by norm_num [normalizeWait])
    rw [h]
    norm_num
  refine ⟨by decide, hm, hv, hs, ?_⟩
  rw [hs]
  intro hc
  have h12 : (21 / 2 : ℚ) = min (12 : ℚ) 15 + 1 / 2 := Option.some.inj hc
  rw [min_eq_left (by norm_num)] at h12
  norm_num at h12

/-- A string with a non-empty prefix is non-empty. -/
theorem append_ne_empty_left {a b : String} (h : a.data ≠ []) : a ++ b ≠ "" := by
  intro hc
  have hd := congrArg String.data hc
  rw [String.data_append, show ("" : String).data = ([] : List Char) from rfl] at hd
  exact h (List.append_eq_nil.mp hd).1

/-- The number of llm calls of the repair loop is bounded by its fuel. -/
theorem fixJsonGo_calls_le (oracle : Nat → LlmCall) :
    ∀ fuel attempt sleeps, (fixJsonGo oracle fuel attempt sleeps).calls ≤ fuel := by
  intro fuel
  induction fuel with
  | zero => intro attempt sleeps; exact Nat.le_refl 0
  | succ f ih =>
    intro attempt sleeps
    unfold fixJsonGo
    cases oracle attempt with
    | content s =>
      by_cases hp : (safe_json_parse (extract_json_from_text s)).2 = "" <;>
        simp [hp]
    | exn e =>
      by_cases hrl : isRateLimitError e = true
      · by_cases ha : attempt < 3
        · cases hw : fixBackoffWait e attempt with
          | some w =>
            simp only [hrl, if_true, ha, hw]
            have := ih (attempt + 1) (sleeps ++ [min w 15 + 1 / 2])
            omega
          | none => simp [hrl, ha, hw]
        · simp [hrl, ha]
      · simp [hrl]

/-- One rate-limited retry step of fix_json without a wait hint: sleep the
capped exponential backoff plus buffer and recurse. -/
theorem fixJsonGo_rl_step (oracle : Nat → LlmCall) (f attempt : Nat)
    (sleeps : List ℚ) (e : String)
    (ho : oracle attempt = LlmCall.exn e) (hr : isRateLimitError e = true)
    (hw : findWaitMatch e = none) (ha : attempt < 3) :
    fixJsonGo oracle (f + 1) attempt sleeps =
      { outcome := (fixJsonGo oracle f (attempt + 1)
          (sleeps ++ [min (2 * 2 ^ attempt) 15 + 1 / 2])).outcome,
        sleeps := (fixJsonGo oracle f (attempt + 1)
          (sleeps ++ [min (2 * 2 ^ attempt) 15 + 1 / 2])).sleeps,
        calls := (fixJsonGo oracle f (attempt + 1)
          (sleeps ++ [min (2 * 2 ^ attempt) 15 + 1 / 2])).calls + 1 } := by
  conv_lhs => rw [fixJsonGo]
  rw [ho]
  simp [hr, ha, fixBackoffWait, hw]

/-- The exhausted rate-limited attempt of fix_json returns the descriptive
error. -/
theorem fixJsonGo_rl_exhaust (oracle : Nat → LlmCall) (f attempt : Nat)
    (sleeps : List ℚ) (e : String)
    (ho : oracle attempt = LlmCall.exn e) (hr : isRateLimitError e = true)
    (ha : ¬(attempt < 3)) :
    fixJsonGo oracle (f + 1) attempt sleeps =
      { outcome := PyOutcome.ret [] (some ("Error during JSON repair: " ++ e)),
        sleeps := sleeps, calls := 1 } := by
  unfold fixJsonGo
  rw [ho]
  simp [hr, ha]

/-- A non-rate-limit exception returns the descriptive error at once. -/
theorem fixJsonGo_other (oracle : Nat → LlmCall) (f attempt : Nat)
    (sleeps : List ℚ) (e : String)
    (ho : oracle attempt = LlmCall.exn e) (hr : isRateLimitError e = false) :
    fixJsonGo oracle (f + 1) attempt sleeps =
      { outcome := PyOutcome.ret [] (some ("Error during JSON repair: " ++ e)),
        sleeps := sleeps, calls := 1 } := by
  conv_lhs => rw [fixJsonGo]
  rw [ho]
  simp [hr]

/-- Claim C7: fix_json always terminates with at most 4 llm calls (one
primary plus at most 3 retries); under persistent hint-free rate limiting
it sleeps the capped exponential backoffs 2, 4, 8 seconds (plus the 0.5
buffer) and returns an empty mapping with a non-empty descriptive error;
and a non-rate-limit error returns an empty mapping with a non-empty error
after a single call. -/
theorem c7_fixer_bounded (oracle : Nat → LlmCall) :
    (fix_json oracle).calls ≤ 4 ∧
    ((∀ i, i ≤ 3 → ∃ e, oracle i = LlmCall.exn e ∧ isRateLimitError e = true ∧
        findWaitMatch e = none) →
      (fix_json oracle).sleeps
        = [min (2 * 2 ^ 0) 15 + 1 / 2, min (2 * 2 ^ 1) 15 + 1 / 2,
           min (2 * 2 ^ 2) 15 + 1 / 2] ∧
      (fix_json oracle).sleeps = [5 / 2, 9 / 2, 17 / 2] ∧
      (∃ msg, (fix_json oracle).outcome = PyOutcome.ret [] (some msg) ∧ msg ≠ "")) ∧
    (∀ e, oracle 0 = LlmCall.exn e → isRateLimitError e = false →
      (fix_json oracle).outcome
        = PyOutcome.ret [] (some ("Error during JSON repair: " ++ e)) ∧
      (fix_json oracle).calls = 1 ∧
      ("Error during JSON repair: " ++ e) ≠ "") := by
  refine ⟨fixJsonGo_calls_le oracle 4 0 [], ?_, ?_⟩
  · intro h
    obtain ⟨e0, ho0, hr0, hw0⟩ := h 0 (by omega)
    obtain ⟨e1, ho1, hr1, hw1⟩ := h 1 (by omega)
    obtain ⟨e2, ho2, hr2, hw2⟩ := h 2 (by omega)
    obtain ⟨e3, ho3, hr3, hw3⟩ := h 3 (by omega)
    have hrun : fix_json oracle =
        { outcome := PyOutcome.ret [] (some ("Error during JSON repair: " ++ e3)),
          sleeps := [min (2 * 2 ^ 0) 15 + 1 / 2, min (2 * 2 ^ 1) 15 + 1 / 2,
            min (2 * 2 ^ 2) 15 + 1 / 2],
          calls := 4 } := by
      show fixJsonGo oracle (3 + 1) 0 [] = _
      rw [fixJsonGo_rl_step oracle 3 0 [] e0 ho0 hr0 hw0 (by omega)]
      rw [show (3 : Nat) = 2 + 1 from rfl,
        fixJsonGo_rl_step oracle 2 (0 + 1) _ e1 (by rw [show (0 + 1 : Nat) = 1 from rfl]; exact ho1) hr1 hw1 (by omega)]
      rw [show (2 : Nat) = 1 + 1 from rfl,
        fixJsonGo_rl_step oracle 1 (0 + 1 + 1) _ e2 (by rw [show (0 + 1 + 1 : Nat) = 2 from rfl]; exact ho2) hr2 hw2 (by omega)]
      rw [show (1 : Nat) = 0 + 1 from rfl,
        fixJsonGo_rl_exhaust oracle 0 (0 + 1 + 1 + 1) _ e3 (by rw [show (0 + 1 + 1 + 1 : Nat) = 3 from rfl]; exact ho3) hr3 (by omega)]
      simp
    rw [hrun]
    refine ⟨rfl, by norm_num, ⟨"Error during JSON repair: " ++ e3, rfl, ?_⟩⟩
    exact append_ne_empty_left (by decide)
  · intro e ho hr
    have hrun : fix_json oracle =
        { outcome := PyOutcome.ret [] (some ("Error during JSON repair: " ++ e)),
          sleeps := [], calls := 1 } := by
      show fixJsonGo oracle (3 + 1) 0 [] = _
      exact fixJsonGo_other oracle 3 0 [] e ho hr
    rw [hrun]
    exact ⟨rfl, rfl, append_ne_empty_left (by decide)⟩

/-- Witness for c7_fixer_bounded under a persistently rate-limited
oracle. -/
theorem c7_fixer_bounded_witness :
    (fix_json oracleAllRateLimited).calls ≤ 4 ∧
    (fix_json oracleAllRateLimited).sleeps = [5 / 2, 9 / 2, 17 / 2] := by
  have h := c7_fixer_bounded oracleAllRateLimited
  refine ⟨h.1, ?_⟩
  have h2 := h.2.1 (fun i _ =>
    ⟨"HTTP 429 too many requests", rfl, by decide, by decide⟩)
  exact h2.2.1

end MC
